import Mathlib

/-!
Shallow embedding of `src/goltsov.vadim/P5/main.cpp`: a polymorphic 2D shape
hierarchy (Rectangle, Rubber annulus, Polygon) with area, frame rectangle,
translation and scaling operations, plus the driver-level aggregate
operations `scaleRelativePoint` and `totalPrint`.

C++ `double` values are modelled as real numbers (exact arithmetic), and
operations that throw `std::logic_error` are modelled as `Except String`.
-/

namespace goltsov

/-- Embeds `struct point_t { double x, y; }` (main.cpp lines 8-11). -/
@[ext]
structure point_t where
  x : ℝ
  y : ℝ


/-- Embeds `struct rectangle_t { double width, height; point_t pos; }`
(main.cpp lines 12-16). -/
@[ext]
structure rectangle_t where
  width : ℝ
  height : ℝ
  pos : point_t


/-- The state of a `Shape` object: the fields of the concrete class behind
the `Shape*` pointer (main.cpp lines 17-25, 66-67, 121-123, 225-228).
`Rectangle` stores a `rectangle_t a`; `Rubber` stores radii `r1, r2` and
centers `pos1, pos2`; `Polygon` stores its vertex buffer `mtx` (modelled as
a list) and the cached centroid `pos`. -/
inductive Shape where
  | Rectangle (a : rectangle_t)
  | Rubber (r1 r2 : ℝ) (pos1 pos2 : point_t)
  | Polygon (mtx : List point_t) (pos : point_t)

open Classical in
/-- Embeds `goltsov::polygonCentroid` (main.cpp lines 125-158): for fewer than 3
vertices, the average of the vertices (or (0,0) when empty); otherwise the
signed-area-weighted (shoelace) centroid. -/
noncomputable def polygonCentroid (mtx : List point_t) : point_t :=
  let n := mtx.length
  if n < 3 then
    if 0 < n then
      ⟨(mtx.map point_t.x).sum / n, (mtx.map point_t.y).sum / n⟩
    else ⟨0, 0⟩
  else
    let area := (∑ i ∈ Finset.range n,
      ((mtx.getD i ⟨0, 0⟩).x * (mtx.getD ((i + 1) % n) ⟨0, 0⟩).y
        - (mtx.getD ((i + 1) % n) ⟨0, 0⟩).x * (mtx.getD i ⟨0, 0⟩).y)) * 0.5
    let cx := ∑ i ∈ Finset.range n,
      ((mtx.getD i ⟨0, 0⟩).x + (mtx.getD ((i + 1) % n) ⟨0, 0⟩).x)
        * ((mtx.getD i ⟨0, 0⟩).x * (mtx.getD ((i + 1) % n) ⟨0, 0⟩).y
            - (mtx.getD ((i + 1) % n) ⟨0, 0⟩).x * (mtx.getD i ⟨0, 0⟩).y)
    let cy := ∑ i ∈ Finset.range n,
      ((mtx.getD i ⟨0, 0⟩).y + (mtx.getD ((i + 1) % n) ⟨0, 0⟩).y)
        * ((mtx.getD i ⟨0, 0⟩).x * (mtx.getD ((i + 1) % n) ⟨0, 0⟩).y
            - (mtx.getD ((i + 1) % n) ⟨0, 0⟩).x * (mtx.getD i ⟨0, 0⟩).y)
    let factor := 1 / (6 * area)
    ⟨cx * factor, cy * factor⟩

/-- The raw shoelace sum accumulated by the loop in
`goltsov::Polygon::getArea` (main.cpp lines 413-418):
`area += mtx[i].x * mtx[j].y - mtx[j].x * mtx[i].y` with `j = (i+1) % n`. -/
noncomputable def crossSum (mtx : List point_t) : ℝ :=
  ∑ i ∈ Finset.range mtx.length,
    ((mtx.getD i ⟨0, 0⟩).x * (mtx.getD ((i + 1) % mtx.length) ⟨0, 0⟩).y
      - (mtx.getD ((i + 1) % mtx.length) ⟨0, 0⟩).x * (mtx.getD i ⟨0, 0⟩).y)

/-- Embeds `goltsov::Polygon::getFrameRect` (main.cpp lines 421-435): min/max of all
vertex coordinates, starting the accumulators at `mtx[0]` and folding over the
whole vertex list (including index 0 again).  The source never calls this with
an empty buffer (the constructor requires at least 3 vertices); for the empty
list, where the source would read out of bounds, we return a zero rectangle. -/
noncomputable def frameOfPoints (mtx : List point_t) : rectangle_t :=
  match mtx with
  | [] => ⟨0, 0, ⟨0, 0⟩⟩
  | p0 :: _ =>
    let max_x := (mtx.map point_t.x).foldl max p0.x
    let min_x := (mtx.map point_t.x).foldl min p0.x
    let max_y := (mtx.map point_t.y).foldl max p0.y
    let min_y := (mtx.map point_t.y).foldl min p0.y
    ⟨max_x - min_x, max_y - min_y, ⟨(max_x + min_x) / 2, (max_y + min_y) / 2⟩⟩

open Classical in
/-- Embeds `getArea` of each concrete shape:
Rectangle (line 346-349): `a.width * a.height`;
Rubber (line 373-376): `PI * (r1*r1 - r2*r2)` with `PI = acos(-1)`, i.e. π;
Polygon (line 410-419): `0` when `n < 3`, else `fabs(shoelace sum) * 0.5`. -/
noncomputable def getArea : Shape → ℝ
  | Shape.Rectangle a => a.width * a.height
  | Shape.Rubber r1 r2 _ _ => Real.pi * (r1 * r1 - r2 * r2)
  | Shape.Polygon mtx _ => if mtx.length < 3 then 0 else |crossSum mtx| * 0.5

/-- Embeds `getFrameRect` of each concrete shape:
Rectangle (line 350-353): the stored `rectangle_t` itself;
Rubber (line 377-380): `{r1*2, r1*2, pos1}`;
Polygon (line 421-435): bounding box of the vertices. -/
noncomputable def getFrameRect : Shape → rectangle_t
  | Shape.Rectangle a => a
  | Shape.Rubber r1 _ pos1 _ => ⟨r1 * 2, r1 * 2, pos1⟩
  | Shape.Polygon mtx _ => frameOfPoints mtx

/-- Embeds `move(const point_t)` of each concrete shape:
Rectangle (line 354-357): `a.pos = newPos`;
Rubber (line 381-388): saves `d = pos1 - pos2`, sets `pos2 = newPos`,
`pos1 = pos2 + d`;
Polygon (line 436-446): translates every vertex by `newPos - pos` and sets
`pos = newPos`. -/
noncomputable def moveToP : Shape → point_t → Shape
  | Shape.Rectangle a, newPos => Shape.Rectangle ⟨a.width, a.height, newPos⟩
  | Shape.Rubber r1 r2 pos1 pos2, newPos =>
      Shape.Rubber r1 r2
        ⟨newPos.x + (pos1.x - pos2.x), newPos.y + (pos1.y - pos2.y)⟩ newPos
  | Shape.Polygon mtx pos, newPos =>
      Shape.Polygon
        (mtx.map fun q => ⟨q.x + (newPos.x - pos.x), q.y + (newPos.y - pos.y)⟩)
        newPos

/-- Embeds `move(const double, const double)` of each concrete shape:
Rectangle (line 358-362), Rubber (line 389-395), Polygon (line 447-456):
translate every stored point by `(dx, dy)`. -/
noncomputable def moveD : Shape → ℝ → ℝ → Shape
  | Shape.Rectangle a, dx, dy =>
      Shape.Rectangle ⟨a.width, a.height, ⟨a.pos.x + dx, a.pos.y + dy⟩⟩
  | Shape.Rubber r1 r2 pos1 pos2, dx, dy =>
      Shape.Rubber r1 r2 ⟨pos1.x + dx, pos1.y + dy⟩ ⟨pos2.x + dx, pos2.y + dy⟩
  | Shape.Polygon mtx pos, dx, dy =>
      Shape.Polygon (mtx.map fun q => ⟨q.x + dx, q.y + dy⟩)
        ⟨pos.x + dx, pos.y + dy⟩

/-- The mutation part of `scale(const double k)` of each concrete shape
(run only after the `k <= 0` check passes):
Rectangle (line 369-370): `a.height *= k; a.width *= k`;
Rubber (line 402-407): `r1 *= k; r2 *= k; pos1 = pos2 + k*(pos1 - pos2)`;
Polygon (line 463-471): every vertex `v` becomes `pos + k*(v - pos)`. -/
noncomputable def doScale : Shape → ℝ → Shape
  | Shape.Rectangle a, k => Shape.Rectangle ⟨a.width * k, a.height * k, a.pos⟩
  | Shape.Rubber r1 r2 pos1 pos2, k =>
      Shape.Rubber (r1 * k) (r2 * k)
        ⟨pos2.x + k * (pos1.x - pos2.x), pos2.y + k * (pos1.y - pos2.y)⟩ pos2
  | Shape.Polygon mtx pos, k =>
      Shape.Polygon
        (mtx.map fun q => ⟨pos.x + k * (q.x - pos.x), pos.y + k * (q.y - pos.y)⟩)
        pos

open Classical in
/-- Embeds `scale(const double k)`: every override (Rectangle line 363-371, Rubber
line 396-408, Polygon line 457-472) first checks `k <= 0` and throws
`std::logic_error("The zoom level must be greater than 0")` before touching
any field; only then does it mutate (validate-then-mutate). -/
noncomputable def scaleE (s : Shape) (k : ℝ) : Except String Shape :=
  if k ≤ 0 then Except.error "The zoom level must be greater than 0"
  else Except.ok (doScale s k)

open Classical in
/-- Embeds `goltsov::Rubber::Rubber` (main.cpp lines 71-86): the constructor checks,
in order: `r1 <= 0 || r2 <= 0`; coincident centers; and
`sqrt((pos1.x-pos2.x)^2 + (pos1.y-pos2.y)^2) + r2 > r1`. -/
noncomputable def mkRubber (r10 : ℝ) (pos10 : point_t) (r20 : ℝ)
    (pos20 : point_t) : Except String Shape :=
  if r10 ≤ 0 ∨ r20 ≤ 0 then
    Except.error "The radii of the circles must be greater than 0"
  else if pos10.x = pos20.x ∧ pos10.y = pos20.y then
    Except.error "The centers of the circles should not coincide"
  else if Real.sqrt ((pos10.x - pos20.x) * (pos10.x - pos20.x)
      + (pos10.y - pos20.y) * (pos10.y - pos20.y)) + r20 > r10 then
    Except.error "The smaller circle should lie completely inside the larger one"
  else Except.ok (Shape.Rubber r10 r20 pos10 pos20)

open Classical in
/-- Embeds `goltsov::Rectangle::Rectangle` (main.cpp lines 28-37). -/
noncomputable def mkRectangle (width height : ℝ) (pos : point_t) :
    Except String Shape :=
  if width ≤ 0 ∨ height ≤ 0 then
    Except.error "The width and height must be greater than zero"
  else Except.ok (Shape.Rectangle ⟨width, height, pos⟩)

open Classical in
/-- Embeds `goltsov::Polygon::Polygon` (main.cpp lines 161-173): the cached centroid
is computed from the input vertices, and construction fails when `n < 3`. -/
noncomputable def mkPolygon (mtx : List point_t) : Except String Shape :=
  if mtx.length < 3 then
    Except.error "The polygon must have at least 3 vertices"
  else Except.ok (Shape.Polygon mtx (polygonCentroid mtx))

/-- Embeds `goltsov::scaleRelativePoint` (main.cpp lines 234-245): capture
`p1 = frameRect().pos`, `move(p)`, `scale(k)` (which may throw), capture
`p2 = frameRect().pos`, then `move(dx*k, dy*k)` with `dx = p1.x - p2.x`,
`dy = p1.y - p2.y`. -/
noncomputable def scaleRelativePoint (a : Shape) (p : point_t) (k : ℝ) :
    Except String Shape :=
  let p1 := (getFrameRect a).pos
  let a1 := moveToP a p
  match scaleE a1 k with
  | Except.error e => Except.error e
  | Except.ok a2 =>
    let p2 := (getFrameRect a2).pos
    Except.ok (moveD a2 ((p1.x - p2.x) * k) ((p1.y - p2.y) * k))

/-- The point that `move(point_t)` installs as the shape's new reference:
the rectangle's center `a.pos` (line 356), the rubber's inner center `pos2`
(line 385), and the polygon's cached centroid `pos` (line 445). -/
def refPos : Shape → point_t
  | Shape.Rectangle a => a.pos
  | Shape.Rubber _ _ _ pos2 => pos2
  | Shape.Polygon _ pos => pos

/-- The acceptance condition of the `Rubber` constructor (main.cpp lines
74-85): positive radii, distinct centers, and
`sqrt(dist^2) + r2 ≤ r1` (exact tangency accepted). -/
def RubberOk (r1 r2 : ℝ) (pos1 pos2 : point_t) : Prop :=
  0 < r1 ∧ 0 < r2 ∧ ¬(pos1.x = pos2.x ∧ pos1.y = pos2.y) ∧
    Real.sqrt ((pos1.x - pos2.x) * (pos1.x - pos2.x)
      + (pos1.y - pos2.y) * (pos1.y - pos2.y)) + r2 ≤ r1

/-- The construction invariant of each concrete shape (Rectangle lines 30-33,
Rubber lines 74-85, Polygon lines 164-167). -/
def ShapeInv : Shape → Prop
  | Shape.Rectangle a => 0 < a.width ∧ 0 < a.height
  | Shape.Rubber r1 r2 pos1 pos2 => RubberOk r1 r2 pos1 pos2
  | Shape.Polygon mtx _ => 3 ≤ mtx.length

/-- Written from the spec's words (refinement target for the
scale-about-point claims): the similarity `q ↦ p + k·(q − p)` the spec
predicts for every geometry point, composed with an extra translation `e`
(the drift actually produced by the code; the spec's claim is `e = 0`). -/
def aboutPoint (p : point_t) (k : ℝ) (e : point_t) (q : point_t) : point_t :=
  ⟨p.x + k * (q.x - p.x) + e.x, p.y + k * (q.y - p.y) + e.y⟩

/-- The drift of `goltsov::scaleRelativePoint`: `k·(1−k)` times the offset
from the shape's move-reference position to its frame-rectangle position.
The function captures `getFrameRect().pos` as its reference (main.cpp line
236, 239) while `move(point_t)` positions the shape by `refPos`; the
mismatch survives as this drift.  It vanishes for every Rectangle (frame
position = reference position), and otherwise only when `k = 1`. -/
noncomputable def drift (S : Shape) (k : ℝ) : point_t :=
  ⟨k * (1 - k) * ((getFrameRect S).pos.x - (refPos S).x),
   k * (1 - k) * ((getFrameRect S).pos.y - (refPos S).y)⟩

/-- Written from the spec's words plus the drift correction: the shape whose
stored points are the images of the original's under
`aboutPoint p k (drift S k)` and whose lengths are multiplied by `k`. -/
noncomputable def scaledAbout (S : Shape) (p : point_t) (k : ℝ) : Shape :=
  match S with
  | Shape.Rectangle a =>
      Shape.Rectangle
        ⟨k * a.width, k * a.height, aboutPoint p k (drift S k) a.pos⟩
  | Shape.Rubber r1 r2 pos1 pos2 =>
      Shape.Rubber (k * r1) (k * r2) (aboutPoint p k (drift S k) pos1)
        (aboutPoint p k (drift S k) pos2)
  | Shape.Polygon mtx pos =>
      Shape.Polygon (mtx.map (aboutPoint p k (drift S k)))
        (aboutPoint p k (drift S k) pos)

/-- The sequence of indices with which `goltsov::totalPrint` (main.cpp lines
247-283) subscripts `mas2`: the areas loop (lines 251-255) reads `mas2[i]`
for `i = 0..count-1`, line 259 reads `mas2[0]` unconditionally, and the
frame-rectangle loop (lines 265-280) reads `mas2[i]` for `i = 0..count-1`. -/
def totalPrintIndices (count : Nat) : List Nat :=
  List.range count ++ [0] ++ List.range count

/-- The frame-rectangle union fold of `goltsov::totalPrint` (main.cpp lines
259-280): the four extents start from the first rectangle (line 259-263:
`left_x = pos.x - width/2`, `right_x = pos.x + width/2`,
`down_y = pos.y - height/2`, `up_y = pos.y + height/2`), and the loop over
the whole collection (index 0 included again) updates each extent with the
strict-comparison min/max (lines 270-277); the final `total_rec` is
`{right - left, up - down, {(left+right)/2, (up+down)/2}}` (line 279).
For the empty collection the source reads `mas2[0]` out of bounds (see
`totalPrintIndices`); we return a zero rectangle there. -/
noncomputable def totalFrameRect (rects : List rectangle_t) : rectangle_t :=
  match rects with
  | [] => ⟨0, 0, ⟨0, 0⟩⟩
  | r0 :: _ =>
    let left_x := (rects.map fun a => a.pos.x - a.width / 2).foldl min
      (r0.pos.x - r0.width / 2)
    let right_x := (rects.map fun a => a.pos.x + a.width / 2).foldl max
      (r0.pos.x + r0.width / 2)
    let down_y := (rects.map fun a => a.pos.y - a.height / 2).foldl min
      (r0.pos.y - r0.height / 2)
    let up_y := (rects.map fun a => a.pos.y + a.height / 2).foldl max
      (r0.pos.y + r0.height / 2)
    ⟨right_x - left_x, up_y - down_y,
      ⟨(left_x + right_x) / 2, (up_y + down_y) / 2⟩⟩

/-- Membership of a point in the closed axis-aligned rectangle described by
a `rectangle_t` (center `pos`, extents `width`/`height`). -/
def inRect (r : rectangle_t) (q : point_t) : Prop :=
  r.pos.x - r.width / 2 ≤ q.x ∧ q.x ≤ r.pos.x + r.width / 2 ∧
  r.pos.y - r.height / 2 ≤ q.y ∧ q.y ≤ r.pos.y + r.height / 2

/-! ### Scalar lemmas about `List.foldl max` / `List.foldl min` -/

lemma foldl_max_init_le (a : ℝ) (xs : List ℝ) : a ≤ xs.foldl max a := by
  induction xs generalizing a with
  | nil => exact le_refl a
  | cons x xs ih => exact le_trans (le_max_left a x) (ih (max a x))

lemma foldl_min_le_init (a : ℝ) (xs : List ℝ) : xs.foldl min a ≤ a := by
  induction xs generalizing a with
  | nil => exact le_refl a
  | cons x xs ih => exact le_trans (ih (min a x)) (min_le_left a x)

lemma mem_le_foldl_max (a x : ℝ) (xs : List ℝ) (hx : x ∈ xs) :
    x ≤ xs.foldl max a := by
  induction xs generalizing a with
  | nil => cases hx
  | cons y ys ih =>
    rcases List.mem_cons.mp hx with h | h
    · subst h
      exact le_trans (le_max_right a x) (foldl_max_init_le (max a x) ys)
    · exact ih (max a y) h

lemma foldl_min_le_mem (a x : ℝ) (xs : List ℝ) (hx : x ∈ xs) :
    xs.foldl min a ≤ x := by
  induction xs generalizing a with
  | nil => cases hx
  | cons y ys ih =>
    rcases List.mem_cons.mp hx with h | h
    · subst h
      exact le_trans (foldl_min_le_init (min a x) ys) (min_le_right a x)
    · exact ih (min a y) h

lemma foldl_max_le (a b : ℝ) (xs : List ℝ) (ha : a ≤ b)
    (h : ∀ x ∈ xs, x ≤ b) : xs.foldl max a ≤ b := by
  induction xs generalizing a with
  | nil => exact ha
  | cons x ys ih =>
    exact ih (max a x) (max_le ha (h x (List.mem_cons_self x ys)))
      (fun z hz => h z (List.mem_cons_of_mem x hz))

lemma le_foldl_min (a b : ℝ) (xs : List ℝ) (ha : b ≤ a)
    (h : ∀ x ∈ xs, b ≤ x) : b ≤ xs.foldl min a := by
  induction xs generalizing a with
  | nil => exact ha
  | cons x ys ih =>
    exact ih (min a x) (le_min ha (h x (List.mem_cons_self x ys)))
      (fun z hz => h z (List.mem_cons_of_mem x hz))

lemma foldl_max_attained (a : ℝ) (xs : List ℝ) :
    xs.foldl max a = a ∨ xs.foldl max a ∈ xs := by
  induction xs generalizing a with
  | nil => exact Or.inl rfl
  | cons x ys ih =>
    rcases ih (max a x) with h | h
    · rcases max_cases a x with ⟨hm, _⟩ | ⟨hm, _⟩
      · exact Or.inl (by rw [List.foldl_cons, h, hm])
      · exact Or.inr (by rw [List.foldl_cons, h, hm]; exact List.mem_cons_self x ys)
    · exact Or.inr (List.mem_cons_of_mem x h)

lemma foldl_min_attained (a : ℝ) (xs : List ℝ) :
    xs.foldl min a = a ∨ xs.foldl min a ∈ xs := by
  induction xs generalizing a with
  | nil => exact Or.inl rfl
  | cons x ys ih =>
    rcases ih (min a x) with h | h
    · rcases min_cases a x with ⟨hm, _⟩ | ⟨hm, _⟩
      · exact Or.inl (by rw [List.foldl_cons, h, hm])
      · exact Or.inr (by rw [List.foldl_cons, h, hm]; exact List.mem_cons_self x ys)
    · exact Or.inr (List.mem_cons_of_mem x h)

/-- When the initial accumulator is itself a member of the list, the fold of
`max` computes the maximum of the list, which depends only on the list's
members. -/
lemma foldl_max_congr (a b : ℝ) (xs ys : List ℝ) (ha : a ∈ xs) (hb : b ∈ ys)
    (hmem : ∀ z, z ∈ xs ↔ z ∈ ys) : xs.foldl max a = ys.foldl max b := by
  have hxy : xs.foldl max a ≤ ys.foldl max b := by
    apply foldl_max_le
    · exact mem_le_foldl_max b a ys ((hmem a).mp ha)
    · exact fun z hz => mem_le_foldl_max b z ys ((hmem z).mp hz)
  have hyx : ys.foldl max b ≤ xs.foldl max a := by
    apply foldl_max_le
    · exact mem_le_foldl_max a b xs ((hmem b).mpr hb)
    · exact fun z hz => mem_le_foldl_max a z xs ((hmem z).mpr hz)
  exact le_antisymm hxy hyx

lemma foldl_min_congr (a b : ℝ) (xs ys : List ℝ) (ha : a ∈ xs) (hb : b ∈ ys)
    (hmem : ∀ z, z ∈ xs ↔ z ∈ ys) : xs.foldl min a = ys.foldl min b := by
  have hxy : ys.foldl min b ≤ xs.foldl min a := by
    apply le_foldl_min
    · exact foldl_min_le_mem b a ys ((hmem a).mp ha)
    · exact fun z hz => foldl_min_le_mem b z ys ((hmem z).mp hz)
  have hyx : xs.foldl min a ≤ ys.foldl min b := by
    apply le_foldl_min
    · exact foldl_min_le_mem a b xs ((hmem b).mpr hb)
    · exact fun z hz => foldl_min_le_mem a z xs ((hmem z).mpr hz)
  exact le_antisymm hyx hxy

/-- Folding `max` over the image of a monotone affine map `t ↦ c + k*t`
(`0 ≤ k`) commutes with the map. -/
lemma foldl_max_map_affine (c k : ℝ) (hk : 0 ≤ k) (a : ℝ) (xs : List ℝ) :
    (xs.map fun t => c + k * t).foldl max (c + k * a) =
      c + k * xs.foldl max a := by
  have hmono : Monotone fun t => c + k * t :=
    fun u v huv => add_le_add_left (mul_le_mul_of_nonneg_left huv hk) c
  induction xs generalizing a with
  | nil => rfl
  | cons x ys ih =>
    rw [List.map_cons, List.foldl_cons, List.foldl_cons,
      show max (c + k * a) (c + k * x) = c + k * max a x from
        (hmono.map_max).symm]
    exact ih (max a x)

lemma foldl_min_map_affine (c k : ℝ) (hk : 0 ≤ k) (a : ℝ) (xs : List ℝ) :
    (xs.map fun t => c + k * t).foldl min (c + k * a) =
      c + k * xs.foldl min a := by
  have hmono : Monotone fun t => c + k * t :=
    fun u v huv => add_le_add_left (mul_le_mul_of_nonneg_left huv hk) c
  induction xs generalizing a with
  | nil => rfl
  | cons x ys ih =>
    rw [List.map_cons, List.foldl_cons, List.foldl_cons,
      show min (c + k * a) (c + k * x) = c + k * min a x from
        (hmono.map_min).symm]
    exact ih (min a x)

/-- The image of a nonempty vertex list under the monotone affine map
`q ↦ (c1 + k*q.x, c2 + k*q.y)` (`0 ≤ k`) has its frame rectangle scaled by
`k` and its frame position moved by the same affine map. -/
lemma frameOfPoints_map_affine (c1 c2 k : ℝ) (hk : 0 ≤ k)
    (mtx : List point_t) (h : mtx ≠ []) :
    frameOfPoints (mtx.map fun q => point_t.mk (c1 + k * q.x) (c2 + k * q.y)) =
      ⟨k * (frameOfPoints mtx).width, k * (frameOfPoints mtx).height,
        ⟨c1 + k * (frameOfPoints mtx).pos.x,
         c2 + k * (frameOfPoints mtx).pos.y⟩⟩ := by
  obtain ⟨p0, rest, rfl⟩ := List.exists_cons_of_ne_nil h
  have hx : List.map point_t.x
        (point_t.mk (c1 + k * p0.x) (c2 + k * p0.y) ::
          List.map (fun q => point_t.mk (c1 + k * q.x) (c2 + k * q.y)) rest)
      = List.map (fun t => c1 + k * t) (List.map point_t.x (p0 :: rest)) := by
    simp [List.map_map, Function.comp_def]
  have hy : List.map point_t.y
        (point_t.mk (c1 + k * p0.x) (c2 + k * p0.y) ::
          List.map (fun q => point_t.mk (c1 + k * q.x) (c2 + k * q.y)) rest)
      = List.map (fun t => c2 + k * t) (List.map point_t.y (p0 :: rest)) := by
    simp [List.map_map, Function.comp_def]
  rw [List.map_cons, frameOfPoints, frameOfPoints]
  rw [hx, hy]
  rw [foldl_max_map_affine c1 k hk, foldl_min_map_affine c1 k hk,
    foldl_max_map_affine c2 k hk, foldl_min_map_affine c2 k hk]
  rw [rectangle_t.mk.injEq, point_t.mk.injEq]
  refine ⟨by ring, by ring, by ring, by ring⟩

/-- Any list translation `q ↦ (q.x + dx, q.y + dy)` is the affine map
`q ↦ (dx + 1*q.x, dy + 1*q.y)`. -/
lemma map_shift_eq_affine (mtx : List point_t) (dx dy : ℝ) :
    (mtx.map fun q => point_t.mk (q.x + dx) (q.y + dy)) =
      mtx.map fun q => point_t.mk (dx + 1 * q.x) (dy + 1 * q.y) := by
  have hf : (fun q : point_t => point_t.mk (q.x + dx) (q.y + dy)) =
      fun q : point_t => point_t.mk (dx + 1 * q.x) (dy + 1 * q.y) := by
    funext q
    rw [point_t.mk.injEq]
    exact ⟨by ring, by ring⟩
  rw [hf]

/-- The vertex map of `goltsov::Polygon::scale` about a center `c` is the
affine map `q ↦ ((c.x - k*c.x) + k*q.x, (c.y - k*c.y) + k*q.y)`. -/
lemma map_scaleAt_eq_affine (mtx : List point_t) (c : point_t) (k : ℝ) :
    (mtx.map fun q =>
        point_t.mk (c.x + k * (q.x - c.x)) (c.y + k * (q.y - c.y))) =
      mtx.map fun q =>
        point_t.mk ((c.x - k * c.x) + k * q.x) ((c.y - k * c.y) + k * q.y) := by
  have hf : (fun q : point_t =>
        point_t.mk (c.x + k * (q.x - c.x)) (c.y + k * (q.y - c.y)))
      = fun q : point_t =>
        point_t.mk ((c.x - k * c.x) + k * q.x) ((c.y - k * c.y) + k * q.y) := by
    funext q
    rw [point_t.mk.injEq]
    exact ⟨by ring, by ring⟩
  rw [hf]

/-! ### Lemmas about the cyclic shoelace sum -/

/-- Summing `g ((i+1) % n)` over `range n` is a cyclic rotation of summing
`g i`. -/
lemma sum_range_rot (n : ℕ) (g : ℕ → ℝ) :
    ∑ i ∈ Finset.range n, g ((i + 1) % n) = ∑ i ∈ Finset.range n, g i := by
  refine Finset.sum_nbij' (fun i => (i + 1) % n) (fun i => (i + n - 1) % n)
    ?_ ?_ ?_ ?_ ?_
  · intro a ha
    rw [Finset.mem_range] at ha ⊢
    exact Nat.mod_lt _ (by omega)
  · intro a ha
    rw [Finset.mem_range] at ha ⊢
    exact Nat.mod_lt _ (by omega)
  · intro a ha
    rw [Finset.mem_range] at ha
    show ((a + 1) % n + n - 1) % n = a
    rcases Nat.lt_or_ge (a + 1) n with h | h
    · rw [Nat.mod_eq_of_lt h, show a + 1 + n - 1 = a + n by omega,
        Nat.add_mod_right, Nat.mod_eq_of_lt ha]
    · have hn : a + 1 = n := by omega
      rw [hn, Nat.mod_self, show 0 + n - 1 = n - 1 by omega,
        Nat.mod_eq_of_lt (by omega)]
      omega
  · intro b hb
    rw [Finset.mem_range] at hb
    show ((b + n - 1) % n + 1) % n = b
    rcases Nat.eq_zero_or_pos b with rfl | h
    · rw [show 0 + n - 1 = n - 1 by omega,
        Nat.mod_eq_of_lt (show n - 1 < n by omega),
        show n - 1 + 1 = n by omega, Nat.mod_self]
    · rw [show b + n - 1 = (b - 1) + n by omega, Nat.add_mod_right,
        Nat.mod_eq_of_lt (show b - 1 < n by omega),
        show b - 1 + 1 = b by omega, Nat.mod_eq_of_lt hb]
  · intro a _
    rfl

/-- Telescoping around the cycle: the cyclic differences of any vertex
function sum to zero. -/
lemma sum_range_rot_sub (n : ℕ) (g : ℕ → ℝ) :
    ∑ i ∈ Finset.range n, (g ((i + 1) % n) - g i) = 0 := by
  rw [Finset.sum_sub_distrib, sum_range_rot n g, sub_self]

/-- The shoelace sum of the image of a vertex list under the similarity
`q ↦ (c1 + k*q.x, c2 + k*q.y)` is `k²` times the original shoelace sum:
the `k²` factor comes out of each cross product and the translation parts
telescope around the cycle. -/
lemma crossSum_map_affine (c1 c2 k : ℝ) (mtx : List point_t) :
    crossSum (mtx.map fun q => point_t.mk (c1 + k * q.x) (c2 + k * q.y)) =
      k ^ 2 * crossSum mtx := by
  simp only [crossSum, List.length_map]
  have key : ∀ i ∈ Finset.range mtx.length,
      ((mtx.map fun q => point_t.mk (c1 + k * q.x) (c2 + k * q.y)).getD i
          ⟨0, 0⟩).x *
        ((mtx.map fun q => point_t.mk (c1 + k * q.x) (c2 + k * q.y)).getD
          ((i + 1) % mtx.length) ⟨0, 0⟩).y -
      ((mtx.map fun q => point_t.mk (c1 + k * q.x) (c2 + k * q.y)).getD
          ((i + 1) % mtx.length) ⟨0, 0⟩).x *
        ((mtx.map fun q => point_t.mk (c1 + k * q.x) (c2 + k * q.y)).getD i
          ⟨0, 0⟩).y
      = k ^ 2 * ((mtx.getD i ⟨0, 0⟩).x * (mtx.getD ((i + 1) % mtx.length) ⟨0, 0⟩).y
          - (mtx.getD ((i + 1) % mtx.length) ⟨0, 0⟩).x * (mtx.getD i ⟨0, 0⟩).y)
        + c1 * k * ((mtx.getD ((i + 1) % mtx.length) ⟨0, 0⟩).y
            - (mtx.getD i ⟨0, 0⟩).y)
        - c2 * k * ((mtx.getD ((i + 1) % mtx.length) ⟨0, 0⟩).x
            - (mtx.getD i ⟨0, 0⟩).x) := by
    intro i hi
    rw [Finset.mem_range] at hi
    have hi2 : (i + 1) % mtx.length < mtx.length := Nat.mod_lt _ (by omega)
    rw [List.getD_eq_getElem _ _ (by simpa using hi),
      List.getD_eq_getElem _ _ (by simpa using hi2),
      List.getD_eq_getElem _ _ hi, List.getD_eq_getElem _ _ hi2]
    simp only [List.getElem_map]
    ring
  rw [Finset.sum_congr rfl key]
  have t1 : ∑ i ∈ Finset.range mtx.length,
      ((mtx.getD ((i + 1) % mtx.length) ⟨0, 0⟩).y - (mtx.getD i ⟨0, 0⟩).y) = 0 :=
    sum_range_rot_sub mtx.length (fun j => (mtx.getD j ⟨0, 0⟩).y)
  have t2 : ∑ i ∈ Finset.range mtx.length,
      ((mtx.getD ((i + 1) % mtx.length) ⟨0, 0⟩).x - (mtx.getD i ⟨0, 0⟩).x) = 0 :=
    sum_range_rot_sub mtx.length (fun j => (mtx.getD j ⟨0, 0⟩).x)
  rw [Finset.sum_sub_distrib, Finset.sum_add_distrib, ← Finset.mul_sum,
    ← Finset.mul_sum, ← Finset.mul_sum, t1, t2]
  ring

/-! ### The closed form of scaleRelativePoint -/

/-- For `k > 0` the `scale` step succeeds and `scaleRelativePoint` returns
the move-scale-move composition. -/
lemma scaleRelativePoint_pos (S : Shape) (p : point_t) (k : ℝ) (hk : 0 < k) :
    scaleRelativePoint S p k =
      Except.ok (moveD (doScale (moveToP S p) k)
        (((getFrameRect S).pos.x -
            (getFrameRect (doScale (moveToP S p) k)).pos.x) * k)
        (((getFrameRect S).pos.y -
            (getFrameRect (doScale (moveToP S p) k)).pos.y) * k)) := by
  unfold scaleRelativePoint scaleE
  split_ifs with h
  · exact absurd h (not_le.mpr hk)
  · rfl

/-- The exact effect of `goltsov::scaleRelativePoint` on every shape state:
each stored point `q` is mapped to `p + k·(q − p) + drift S k` and each
stored length is multiplied by `k`. -/
lemma scaleRelativePoint_closed (S : Shape) (p : point_t) (k : ℝ)
    (hk : 0 < k) (hS : ShapeInv S) :
    scaleRelativePoint S p k = Except.ok (scaledAbout S p k) := by
  rw [scaleRelativePoint_pos S p k hk]
  cases S with
  | Rectangle a =>
    simp only [moveToP, doScale, getFrameRect, moveD, scaledAbout, aboutPoint,
      drift, refPos, Except.ok.injEq, Shape.Rectangle.injEq,
      rectangle_t.mk.injEq, point_t.mk.injEq]
    refine ⟨by ring, by ring, by ring, by ring⟩
  | Rubber r1 r2 p1 p2 =>
    simp only [moveToP, doScale, getFrameRect, moveD, scaledAbout, aboutPoint,
      drift, refPos, Except.ok.injEq, Shape.Rubber.injEq, point_t.mk.injEq]
    refine ⟨by ring, by ring, ⟨by ring, by ring⟩, ⟨by ring, by ring⟩⟩
  | Polygon mtx pos =>
    have hne : mtx ≠ [] := by
      intro hE
      rw [hE] at hS
      simp [ShapeInv] at hS
    simp only [moveToP, doScale, getFrameRect, moveD, scaledAbout, aboutPoint,
      drift, refPos, Except.ok.injEq, Shape.Polygon.injEq]
    have hl2 : ((mtx.map fun q =>
          point_t.mk (q.x + (p.x - pos.x)) (q.y + (p.y - pos.y))).map fun q =>
            point_t.mk (p.x + k * (q.x - p.x)) (p.y + k * (q.y - p.y)))
        = mtx.map fun q =>
            point_t.mk ((p.x - k * pos.x) + k * q.x) ((p.y - k * pos.y) + k * q.y) := by
      rw [List.map_map]
      have hf : ((fun q : point_t =>
            point_t.mk (p.x + k * (q.x - p.x)) (p.y + k * (q.y - p.y))) ∘
          fun q : point_t =>
            point_t.mk (q.x + (p.x - pos.x)) (q.y + (p.y - pos.y)))
          = fun q : point_t =>
            point_t.mk ((p.x - k * pos.x) + k * q.x) ((p.y - k * pos.y) + k * q.y) := by
        funext q
        simp only [Function.comp_apply]
        rw [point_t.mk.injEq]
        exact ⟨by ring, by ring⟩
      rw [hf]
    rw [hl2, frameOfPoints_map_affine (p.x - k * pos.x) (p.y - k * pos.y) k
      hk.le mtx hne]
    constructor
    · rw [List.map_map]
      have hf2 : ((fun q : point_t =>
            point_t.mk
              (q.x + ((frameOfPoints mtx).pos.x -
                ((p.x - k * pos.x) + k * (frameOfPoints mtx).pos.x)) * k)
              (q.y + ((frameOfPoints mtx).pos.y -
                ((p.y - k * pos.y) + k * (frameOfPoints mtx).pos.y)) * k)) ∘
          fun q : point_t =>
            point_t.mk ((p.x - k * pos.x) + k * q.x) ((p.y - k * pos.y) + k * q.y))
          = aboutPoint p k
              (point_t.mk (k * (1 - k) * ((frameOfPoints mtx).pos.x - pos.x))
                (k * (1 - k) * ((frameOfPoints mtx).pos.y - pos.y))) := by
        funext q
        simp only [Function.comp_apply, aboutPoint]
        rw [point_t.mk.injEq]
        exact ⟨by ring, by ring⟩
      rw [hf2]
    · rw [point_t.mk.injEq]
      exact ⟨by ring, by ring⟩

/-! ### C4: scale with k ≤ 0 fails without mutating -/

/-- C4: for every shape S (Rectangle, Rubber, or Polygon) and every k ≤ 0,
`scale(k)` fails with the invalid-argument error; the check precedes every
field mutation, so the shape is left completely unchanged. -/
theorem scale_nonpos_fails (S : Shape) (k : ℝ) (hk : k ≤ 0) :
    scaleE S k = Except.error "The zoom level must be greater than 0" := by
  unfold scaleE
  rw [if_pos hk]

theorem scale_nonpos_fails_witness :
    (-1 : ℝ) ≤ 0 ∧ scaleE (Shape.Rectangle ⟨1, 5, ⟨2, 3⟩⟩) (-1) =
      Except.error "The zoom level must be greater than 0" :=
  ⟨by norm_num, scale_nonpos_fails (Shape.Rectangle ⟨1, 5, ⟨2, 3⟩⟩) (-1) (by norm_num)⟩

/-! ### C5: the Rubber constructor acceptance condition -/

/-- C5: the `Rubber` constructor succeeds (returning exactly the annulus with
the given fields) if and only if `r1 > 0`, `r2 > 0`, the centers are distinct,
and `distance(pos1,pos2) + r2 ≤ r1`; since rejection uses the strict `>`,
exact tangency (`distance + r2 = r1`) is accepted, and each violated
condition yields a construction error. -/
theorem rubber_ctor_iff (r10 r20 : ℝ) (pos10 pos20 : point_t) :
    mkRubber r10 pos10 r20 pos20 =
        Except.ok (Shape.Rubber r10 r20 pos10 pos20) ↔
      RubberOk r10 r20 pos10 pos20 := by
  constructor
  · intro h
    unfold mkRubber at h
    split_ifs at h with h1 h2 h3
    push_neg at h1
    exact ⟨h1.1, h1.2, h2, not_lt.mp h3⟩
  · rintro ⟨hr1, hr2, hc, hd⟩
    unfold mkRubber
    rw [if_neg (by push_neg; exact ⟨hr1, hr2⟩),
      if_neg hc, if_neg (not_lt.mpr hd)]

/-! ### C8: moveBy agrees with moveTo at the shifted reference point -/

/-- C8: for every shape S and every delta (dx, dy), `move(dx, dy)` produces
exactly the same state as `move(point_t)` applied to the current reference
position shifted by (dx, dy). -/
theorem moveBy_eq_moveTo_shifted (S : Shape) (dx dy : ℝ) :
    moveD S dx dy =
      moveToP S ⟨(refPos S).x + dx, (refPos S).y + dy⟩ := by
  cases S with
  | Rectangle a =>
    rfl
  | Rubber r1 r2 p1 p2 =>
    simp only [moveD, moveToP, refPos, Shape.Rubber.injEq, point_t.mk.injEq]
    refine ⟨trivial, trivial, ⟨by ring, by ring⟩, trivial⟩
  | Polygon mtx pos =>
    simp only [moveD, moveToP, refPos, Shape.Polygon.injEq]
    constructor
    · have hf : (fun q : point_t => point_t.mk (q.x + dx) (q.y + dy)) =
          fun q : point_t =>
            point_t.mk (q.x + (pos.x + dx - pos.x)) (q.y + (pos.y + dy - pos.y)) := by
        funext q
        rw [point_t.mk.injEq]
        exact ⟨by ring, by ring⟩
      rw [hf]
    · trivial

/-! ### C10: the array accesses of totalPrint -/

/-- C10: totalPrint reads `mas2[0]` unconditionally; with `count ≥ 1`
every access `mas2[i]` it performs satisfies `i < count`, and with
`count = 0` the unconditional access is out of bounds (no emptiness guard). -/
theorem totalPrint_accesses (count : Nat) :
    0 ∈ totalPrintIndices count ∧
    (1 ≤ count → ∀ i ∈ totalPrintIndices count, i < count) ∧
    (count = 0 → ∃ i ∈ totalPrintIndices count, ¬ i < count) := by
  refine ⟨?_, ?_, ?_⟩
  · simp [totalPrintIndices]
  · intro h i hi
    simp only [totalPrintIndices, List.mem_append, List.mem_range,
      List.mem_singleton] at hi
    rcases hi with (hi | hi) | hi
    · exact hi
    · omega
    · exact hi
  · intro h
    subst h
    exact ⟨0, by simp [totalPrintIndices], by omega⟩

theorem totalPrint_accesses_witness :
    1 ≤ 2 ∧ ∀ i ∈ totalPrintIndices 2, i < 2 :=
  ⟨by norm_num, (totalPrint_accesses 2).2.1 (by norm_num)⟩

/-! ### C2: the frame-rectangle position after move(point_t) -/

/-- C2 (amended): after `move(p)` the frame-rectangle position equals the old
frame position translated by `p - refPos(S)` — `move` installs `p` as the
shape's reference position, and the frame position keeps its fixed offset
from the reference.  It equals `p` itself for every Rectangle (whose frame
position is its reference position), but not for Rubber (frame position is
the outer center `pos1`, reference is the inner center `pos2`) or Polygon
(frame position is the bounding-box midpoint, reference is the centroid). -/
theorem framePos_after_moveTo (S : Shape) (p : point_t) (h : ShapeInv S) :
    (getFrameRect (moveToP S p)).pos =
      ⟨(getFrameRect S).pos.x + (p.x - (refPos S).x),
       (getFrameRect S).pos.y + (p.y - (refPos S).y)⟩ ∧
    ∀ a, S = Shape.Rectangle a → (getFrameRect (moveToP S p)).pos = p := by
  cases S with
  | Rectangle a =>
    constructor
    · simp only [moveToP, getFrameRect, refPos]
      ext
      · show p.x = a.pos.x + (p.x - a.pos.x)
        ring
      · show p.y = a.pos.y + (p.y - a.pos.y)
        ring
    · intro a2 h2
      rfl
  | Rubber r1 r2 p1 p2 =>
    constructor
    · simp only [moveToP, getFrameRect, refPos]
      ext
      · show p.x + (p1.x - p2.x) = p1.x + (p.x - p2.x)
        ring
      · show p.y + (p1.y - p2.y) = p1.y + (p.y - p2.y)
        ring
    · intro a2 h2
      exact Shape.noConfusion h2
  | Polygon mtx pos =>
    have hne : mtx ≠ [] := by
      intro hE
      rw [hE] at h
      simp [ShapeInv] at h
    constructor
    · simp only [moveToP, getFrameRect, refPos]
      rw [map_shift_eq_affine mtx (p.x - pos.x) (p.y - pos.y),
        frameOfPoints_map_affine (p.x - pos.x) (p.y - pos.y) 1 (by norm_num)
          mtx hne]
      ext
      · show (p.x - pos.x) + 1 * (frameOfPoints mtx).pos.x =
          (frameOfPoints mtx).pos.x + (p.x - pos.x)
        ring
      · show (p.y - pos.y) + 1 * (frameOfPoints mtx).pos.y =
          (frameOfPoints mtx).pos.y + (p.y - pos.y)
        ring
    · intro a2 h2
      exact Shape.noConfusion h2

theorem framePos_after_moveTo_witness :
    ShapeInv (Shape.Rectangle ⟨2, 3, ⟨1, 1⟩⟩) ∧
    (getFrameRect (moveToP (Shape.Rectangle ⟨2, 3, ⟨1, 1⟩⟩) ⟨4, 5⟩)).pos =
      (⟨4, 5⟩ : point_t) :=
  ⟨⟨by norm_num, by norm_num⟩,
    (framePos_after_moveTo (Shape.Rectangle ⟨2, 3, ⟨1, 1⟩⟩) ⟨4, 5⟩
      ⟨by norm_num, by norm_num⟩).2 ⟨2, 3, ⟨1, 1⟩⟩ rfl⟩

/-- C2 as stated is false: for the constructor-valid annulus
`Rubber(r1=3, pos1=(0,1), r2=1, pos2=(0,0))` (distance 1, 1+1 ≤ 3), after
`move((0,0))` the frame-rectangle position is `pos1 = (0,1)`, not `(0,0)`. -/
theorem framePos_after_moveTo_cex :
    (getFrameRect (moveToP (Shape.Rubber 3 1 ⟨0, 1⟩ ⟨0, 0⟩) ⟨0, 0⟩)).pos ≠
      (⟨0, 0⟩ : point_t) := by
  intro hEq
  have hy := congrArg point_t.y hEq
  simp only [moveToP, getFrameRect] at hy
  norm_num at hy

/-! ### C7: the frame-rectangle union fold of totalPrint -/

/-- C7: for every nonempty collection of frame rectangles (all with
nonnegative extents, as every shape's frame rectangle has), the extents fold
of `totalPrint` contains every input rectangle, is contained in every
axis-aligned rectangle that contains all the inputs (i.e. it is the true
bounding box of their union), and is unchanged by any permutation of the
collection. -/
theorem totalFrameRect_is_bbox (rects rects2 : List rectangle_t)
    (hne : rects ≠ []) (hwh : ∀ r ∈ rects, 0 ≤ r.width ∧ 0 ≤ r.height)
    (hperm : rects2.Perm rects) :
    (∀ r ∈ rects, ∀ q : point_t, inRect r q → inRect (totalFrameRect rects) q) ∧
    (∀ B : rectangle_t,
      (∀ r ∈ rects, ∀ q : point_t, inRect r q → inRect B q) →
        ∀ q : point_t, inRect (totalFrameRect rects) q → inRect B q) ∧
    totalFrameRect rects2 = totalFrameRect rects := by
  obtain ⟨r0, rest, rfl⟩ := List.exists_cons_of_ne_nil hne
  refine ⟨?_, ?_, ?_⟩
  · -- containment of every input rectangle
    intro r hr q hq
    simp only [inRect] at hq
    obtain ⟨hq1, hq2, hq3, hq4⟩ := hq
    have hL : List.foldl min (r0.pos.x - r0.width / 2)
        (List.map (fun a => a.pos.x - a.width / 2) (r0 :: rest)) ≤
          r.pos.x - r.width / 2 :=
      foldl_min_le_mem _ _ _ (List.mem_map_of_mem _ hr)
    have hR : r.pos.x + r.width / 2 ≤
        List.foldl max (r0.pos.x + r0.width / 2)
          (List.map (fun a => a.pos.x + a.width / 2) (r0 :: rest)) :=
      mem_le_foldl_max _ _ _ (List.mem_map_of_mem _ hr)
    have hD : List.foldl min (r0.pos.y - r0.height / 2)
        (List.map (fun a => a.pos.y - a.height / 2) (r0 :: rest)) ≤
          r.pos.y - r.height / 2 :=
      foldl_min_le_mem _ _ _ (List.mem_map_of_mem _ hr)
    have hU : r.pos.y + r.height / 2 ≤
        List.foldl max (r0.pos.y + r0.height / 2)
          (List.map (fun a => a.pos.y + a.height / 2) (r0 :: rest)) :=
      mem_le_foldl_max _ _ _ (List.mem_map_of_mem _ hr)
    simp only [totalFrameRect, inRect]
    refine ⟨by linarith, by linarith, by linarith, by linarith⟩
  · -- minimality among axis-aligned rectangles containing all inputs
    intro B hB q hq
    have hcorner : ∀ r ∈ r0 :: rest,
        B.pos.x - B.width / 2 ≤ r.pos.x - r.width / 2 ∧
        r.pos.x + r.width / 2 ≤ B.pos.x + B.width / 2 ∧
        B.pos.y - B.height / 2 ≤ r.pos.y - r.height / 2 ∧
        r.pos.y + r.height / 2 ≤ B.pos.y + B.height / 2 := by
      intro r hr
      obtain ⟨hw, hh⟩ := hwh r hr
      have h1 := hB r hr ⟨r.pos.x - r.width / 2, r.pos.y⟩
        ⟨le_refl _, by linarith, by linarith, by linarith⟩
      have h2 := hB r hr ⟨r.pos.x + r.width / 2, r.pos.y⟩
        ⟨by linarith, le_refl _, by linarith, by linarith⟩
      have h3 := hB r hr ⟨r.pos.x, r.pos.y - r.height / 2⟩
        ⟨by linarith, by linarith, le_refl _, by linarith⟩
      have h4 := hB r hr ⟨r.pos.x, r.pos.y + r.height / 2⟩
        ⟨by linarith, by linarith, by linarith, le_refl _⟩
      simp only [inRect] at h1 h2 h3 h4
      exact ⟨h1.1, h2.2.1, h3.2.2.1, h4.2.2.2⟩
    have hBL : B.pos.x - B.width / 2 ≤
        List.foldl min (r0.pos.x - r0.width / 2)
          (List.map (fun a => a.pos.x - a.width / 2) (r0 :: rest)) := by
      apply le_foldl_min
      · exact (hcorner r0 (List.mem_cons_self r0 rest)).1
      · intro x hx
        obtain ⟨r, hr, rfl⟩ := List.mem_map.mp hx
        exact (hcorner r hr).1
    have hBR : List.foldl max (r0.pos.x + r0.width / 2)
        (List.map (fun a => a.pos.x + a.width / 2) (r0 :: rest)) ≤
          B.pos.x + B.width / 2 := by
      apply foldl_max_le
      · exact (hcorner r0 (List.mem_cons_self r0 rest)).2.1
      · intro x hx
        obtain ⟨r, hr, rfl⟩ := List.mem_map.mp hx
        exact (hcorner r hr).2.1
    have hBD : B.pos.y - B.height / 2 ≤
        List.foldl min (r0.pos.y - r0.height / 2)
          (List.map (fun a => a.pos.y - a.height / 2) (r0 :: rest)) := by
      apply le_foldl_min
      · exact (hcorner r0 (List.mem_cons_self r0 rest)).2.2.1
      · intro x hx
        obtain ⟨r, hr, rfl⟩ := List.mem_map.mp hx
        exact (hcorner r hr).2.2.1
    have hBU : List.foldl max (r0.pos.y + r0.height / 2)
        (List.map (fun a => a.pos.y + a.height / 2) (r0 :: rest)) ≤
          B.pos.y + B.height / 2 := by
      apply foldl_max_le
      · exact (hcorner r0 (List.mem_cons_self r0 rest)).2.2.2
      · intro x hx
        obtain ⟨r, hr, rfl⟩ := List.mem_map.mp hx
        exact (hcorner r hr).2.2.2
    simp only [totalFrameRect, inRect] at hq
    obtain ⟨hq1, hq2, hq3, hq4⟩ := hq
    simp only [inRect]
    refine ⟨by linarith, by linarith, by linarith, by linarith⟩
  · -- permutation invariance
    have hne2 : rects2 ≠ [] := by
      intro hE
      rw [hE] at hperm
      have := hperm.length_eq
      simp at this
    obtain ⟨s0, srest, rfl⟩ := List.exists_cons_of_ne_nil hne2
    have hmemL : ∀ z, z ∈ List.map (fun a => a.pos.x - a.width / 2) (s0 :: srest)
        ↔ z ∈ List.map (fun a => a.pos.x - a.width / 2) (r0 :: rest) :=
      fun z => (hperm.map (fun a => a.pos.x - a.width / 2)).mem_iff
    have hmemR : ∀ z, z ∈ List.map (fun a => a.pos.x + a.width / 2) (s0 :: srest)
        ↔ z ∈ List.map (fun a => a.pos.x + a.width / 2) (r0 :: rest) :=
      fun z => (hperm.map (fun a => a.pos.x + a.width / 2)).mem_iff
    have hmemD : ∀ z, z ∈ List.map (fun a => a.pos.y - a.height / 2) (s0 :: srest)
        ↔ z ∈ List.map (fun a => a.pos.y - a.height / 2) (r0 :: rest) :=
      fun z => (hperm.map (fun a => a.pos.y - a.height / 2)).mem_iff
    have hmemU : ∀ z, z ∈ List.map (fun a => a.pos.y + a.height / 2) (s0 :: srest)
        ↔ z ∈ List.map (fun a => a.pos.y + a.height / 2) (r0 :: rest) :=
      fun z => (hperm.map (fun a => a.pos.y + a.height / 2)).mem_iff
    have eL := foldl_min_congr (s0.pos.x - s0.width / 2) (r0.pos.x - r0.width / 2)
      (List.map (fun a => a.pos.x - a.width / 2) (s0 :: srest))
      (List.map (fun a => a.pos.x - a.width / 2) (r0 :: rest))
      (List.mem_map_of_mem _ (List.mem_cons_self s0 srest))
      (List.mem_map_of_mem _ (List.mem_cons_self r0 rest)) hmemL
    have eR := foldl_max_congr (s0.pos.x + s0.width / 2) (r0.pos.x + r0.width / 2)
      (List.map (fun a => a.pos.x + a.width / 2) (s0 :: srest))
      (List.map (fun a => a.pos.x + a.width / 2) (r0 :: rest))
      (List.mem_map_of_mem _ (List.mem_cons_self s0 srest))
      (List.mem_map_of_mem _ (List.mem_cons_self r0 rest)) hmemR
    have eD := foldl_min_congr (s0.pos.y - s0.height / 2) (r0.pos.y - r0.height / 2)
      (List.map (fun a => a.pos.y - a.height / 2) (s0 :: srest))
      (List.map (fun a => a.pos.y - a.height / 2) (r0 :: rest))
      (List.mem_map_of_mem _ (List.mem_cons_self s0 srest))
      (List.mem_map_of_mem _ (List.mem_cons_self r0 rest)) hmemD
    have eU := foldl_max_congr (s0.pos.y + s0.height / 2) (r0.pos.y + r0.height / 2)
      (List.map (fun a => a.pos.y + a.height / 2) (s0 :: srest))
      (List.map (fun a => a.pos.y + a.height / 2) (r0 :: rest))
      (List.mem_map_of_mem _ (List.mem_cons_self s0 srest))
      (List.mem_map_of_mem _ (List.mem_cons_self r0 rest)) hmemU
    simp only [totalFrameRect]
    rw [eL, eR, eD, eU]

theorem totalFrameRect_is_bbox_witness :
    ([⟨2, 2, ⟨0, 0⟩⟩, ⟨4, 2, ⟨3, 1⟩⟩] : List rectangle_t) ≠ [] ∧
    (∀ r ∈ ([⟨2, 2, ⟨0, 0⟩⟩, ⟨4, 2, ⟨3, 1⟩⟩] : List rectangle_t),
      0 ≤ r.width ∧ 0 ≤ r.height) ∧
    totalFrameRect [⟨4, 2, ⟨3, 1⟩⟩, ⟨2, 2, ⟨0, 0⟩⟩] =
      totalFrameRect [⟨2, 2, ⟨0, 0⟩⟩, ⟨4, 2, ⟨3, 1⟩⟩] :=
  ⟨by simp,
   by
    intro r hr
    simp only [List.mem_cons, List.not_mem_nil, or_false] at hr
    rcases hr with rfl | rfl <;> norm_num,
   (totalFrameRect_is_bbox [⟨2, 2, ⟨0, 0⟩⟩, ⟨4, 2, ⟨3, 1⟩⟩]
      [⟨4, 2, ⟨3, 1⟩⟩, ⟨2, 2, ⟨0, 0⟩⟩] (by simp)
      (by
        intro r hr
        simp only [List.mem_cons, List.not_mem_nil, or_false] at hr
        rcases hr with rfl | rfl <;> norm_num)
      (List.Perm.swap _ _ _)).2.2⟩

/-! ### C6: area scales by k² -/

/-- C6: for every shape S (Rectangle, Rubber, or Polygon) and every k > 0,
the area after `scale(k)` equals `k²` times the area before (in exact
arithmetic): Rectangle multiplies both sides by k, Rubber both radii, and
the Polygon shoelace sum scales by `k²` with the translation parts
telescoping around the vertex cycle. -/
theorem area_after_scale (S : Shape) (k : ℝ) (hk : 0 < k) :
    getArea (doScale S k) = k ^ 2 * getArea S := by
  cases S with
  | Rectangle a =>
    simp only [doScale, getArea]
    ring
  | Rubber r1 r2 p1 p2 =>
    simp only [doScale, getArea]
    ring
  | Polygon mtx pos =>
    simp only [doScale, getArea, List.length_map]
    split_ifs with h
    · ring
    · rw [map_scaleAt_eq_affine mtx pos k,
        crossSum_map_affine (pos.x - k * pos.x) (pos.y - k * pos.y) k mtx,
        abs_mul, abs_of_nonneg (by positivity : (0:ℝ) ≤ k ^ 2)]
      ring

theorem area_after_scale_witness :
    (0:ℝ) < 2 ∧ getArea (doScale (Shape.Rectangle ⟨1, 5, ⟨2, 3⟩⟩) 2) =
      2 ^ 2 * getArea (Shape.Rectangle ⟨1, 5, ⟨2, 3⟩⟩) :=
  ⟨by norm_num, area_after_scale (Shape.Rectangle ⟨1, 5, ⟨2, 3⟩⟩) 2 (by norm_num)⟩

/-! ### C1: what scaleRelativePoint actually computes -/

/-- C1 (amended): for every valid shape S, external point p and k > 0,
`scaleRelativePoint(S, p, k)` maps every stored geometry point `q` to
`p + k·(q − p) + k·(1−k)·(frameRect(S).pos − refPos(S))` and multiplies every
stored length by k.  The composition captures `getFrameRect().pos` as its
reference, while `move(point_t)` positions the shape by `refPos`, so the
claimed pure scale-about-p holds exactly when that drift vanishes — in
particular for every Rectangle, whose drift is zero. -/
theorem scaleRelativePoint_exact (S : Shape) (p : point_t) (k : ℝ)
    (hk : 0 < k) (hS : ShapeInv S) :
    scaleRelativePoint S p k = Except.ok (scaledAbout S p k) ∧
    ∀ a, S = Shape.Rectangle a → drift S k = ⟨0, 0⟩ := by
  refine ⟨scaleRelativePoint_closed S p k hk hS, ?_⟩
  rintro a rfl
  simp only [drift, getFrameRect, refPos]
  rw [point_t.mk.injEq]
  exact ⟨by ring, by ring⟩

theorem scaleRelativePoint_exact_witness :
    (0:ℝ) < 2 ∧ ShapeInv (Shape.Rectangle ⟨2, 4, ⟨1, 1⟩⟩) ∧
    scaleRelativePoint (Shape.Rectangle ⟨2, 4, ⟨1, 1⟩⟩) ⟨0, 0⟩ 2 =
      Except.ok (scaledAbout (Shape.Rectangle ⟨2, 4, ⟨1, 1⟩⟩) ⟨0, 0⟩ 2) :=
  ⟨by norm_num, ⟨by norm_num, by norm_num⟩,
    (scaleRelativePoint_exact (Shape.Rectangle ⟨2, 4, ⟨1, 1⟩⟩) ⟨0, 0⟩ 2
      (by norm_num) ⟨by norm_num, by norm_num⟩).1⟩

/-- C1 as stated is false: for the constructor-valid annulus
`Rubber(r1=3, pos1=(0,1), r2=1, pos2=(0,0))`, pivot p=(0,0) and k=2, the
code produces centers pos1=(0,0) and pos2=(0,-2), not the predicted images
`p + k·(q − p)` (which are (0,2) and (0,0)): the state drifts by
`k·(1−k)·(pos1 − pos2) = (0,-2)`. -/
theorem scaleRelativePoint_exact_cex :
    scaleRelativePoint (Shape.Rubber 3 1 ⟨0, 1⟩ ⟨0, 0⟩) ⟨0, 0⟩ 2 =
      Except.ok (Shape.Rubber 6 2 ⟨0, 0⟩ ⟨0, -2⟩) ∧
    scaleRelativePoint (Shape.Rubber 3 1 ⟨0, 1⟩ ⟨0, 0⟩) ⟨0, 0⟩ 2 ≠
      Except.ok (Shape.Rubber 6 2 (aboutPoint ⟨0, 0⟩ 2 ⟨0, 0⟩ ⟨0, 1⟩)
        (aboutPoint ⟨0, 0⟩ 2 ⟨0, 0⟩ ⟨0, 0⟩)) := by
  have h1 : scaleRelativePoint (Shape.Rubber 3 1 ⟨0, 1⟩ ⟨0, 0⟩) ⟨0, 0⟩ 2 =
      Except.ok (Shape.Rubber 6 2 ⟨0, 0⟩ ⟨0, -2⟩) := by
    rw [scaleRelativePoint_pos (Shape.Rubber 3 1 ⟨0, 1⟩ ⟨0, 0⟩) ⟨0, 0⟩ 2
      (by norm_num)]
    simp only [moveToP, getFrameRect, doScale, moveD, Except.ok.injEq,
      Shape.Rubber.injEq, point_t.mk.injEq]
    norm_num
  refine ⟨h1, ?_⟩
  rw [h1]
  intro h2
  rw [Except.ok.injEq, Shape.Rubber.injEq] at h2
  have h3 := congrArg point_t.y h2.2.2.2
  simp only [aboutPoint] at h3
  norm_num at h3

/-! ### C3: scaleRelativePoint at the shape's own center -/

/-- C3 (amended): when S's reference position equals p and additionally S's
frame-rectangle position equals p, `scaleRelativePoint(S, p, k)` produces
exactly the same state as `scale(k)` directly.  For a Rectangle the second
condition is the first (frame position = reference position); for a Rubber
it can never hold (the centers are distinct, and the captured frame position
is the outer center while the reference is the inner one); for a Polygon it
holds only when the bounding-box midpoint coincides with the centroid. -/
theorem scaleRelativePoint_at_center (S : Shape) (p : point_t) (k : ℝ)
    (hk : 0 < k) (hS : ShapeInv S) (href : refPos S = p)
    (hframe : (getFrameRect S).pos = p) :
    scaleRelativePoint S p k = scaleE S k := by
  rw [scaleRelativePoint_closed S p k hk hS]
  unfold scaleE
  split_ifs with h
  · exact absurd h (not_le.mpr hk)
  · cases S with
    | Rectangle a =>
      simp only [refPos] at href
      subst href
      simp only [scaledAbout, doScale, drift, getFrameRect, refPos, aboutPoint,
        Except.ok.injEq, Shape.Rectangle.injEq, rectangle_t.mk.injEq]
      refine ⟨by ring, by ring, ?_⟩
      ext
      · show a.pos.x + k * (a.pos.x - a.pos.x) +
          k * (1 - k) * (a.pos.x - a.pos.x) = a.pos.x
        ring
      · show a.pos.y + k * (a.pos.y - a.pos.y) +
          k * (1 - k) * (a.pos.y - a.pos.y) = a.pos.y
        ring
    | Rubber r1 r2 p1 p2 =>
      simp only [refPos] at href
      simp only [getFrameRect] at hframe
      obtain ⟨_, _, hd, _⟩ := hS
      exact absurd ⟨by rw [hframe, href], by rw [hframe, href]⟩ hd
    | Polygon mtx pos =>
      simp only [refPos] at href
      subst href
      simp only [getFrameRect] at hframe
      simp only [scaledAbout, doScale, drift, getFrameRect, refPos,
        Except.ok.injEq, Shape.Polygon.injEq]
      rw [hframe]
      constructor
      · have hf : aboutPoint pos k
            (point_t.mk (k * (1 - k) * (pos.x - pos.x))
              (k * (1 - k) * (pos.y - pos.y)))
            = fun q : point_t =>
              point_t.mk (pos.x + k * (q.x - pos.x)) (pos.y + k * (q.y - pos.y)) := by
          funext q
          simp only [aboutPoint]
          rw [point_t.mk.injEq]
          exact ⟨by ring, by ring⟩
        rw [hf]
      · simp only [aboutPoint]
        ext
        · show pos.x + k * (pos.x - pos.x) + k * (1 - k) * (pos.x - pos.x) = pos.x
          ring
        · show pos.y + k * (pos.y - pos.y) + k * (1 - k) * (pos.y - pos.y) = pos.y
          ring

theorem scaleRelativePoint_at_center_witness :
    (0:ℝ) < 2 ∧ ShapeInv (Shape.Rectangle ⟨2, 3, ⟨1, 1⟩⟩) ∧
    refPos (Shape.Rectangle ⟨2, 3, ⟨1, 1⟩⟩) = ⟨1, 1⟩ ∧
    (getFrameRect (Shape.Rectangle ⟨2, 3, ⟨1, 1⟩⟩)).pos = ⟨1, 1⟩ ∧
    scaleRelativePoint (Shape.Rectangle ⟨2, 3, ⟨1, 1⟩⟩) ⟨1, 1⟩ 2 =
      scaleE (Shape.Rectangle ⟨2, 3, ⟨1, 1⟩⟩) 2 :=
  ⟨by norm_num, ⟨by norm_num, by norm_num⟩, rfl, rfl,
    scaleRelativePoint_at_center (Shape.Rectangle ⟨2, 3, ⟨1, 1⟩⟩) ⟨1, 1⟩ 2
      (by norm_num) ⟨by norm_num, by norm_num⟩ rfl rfl⟩

/-- C3 as stated is false: for the constructor-valid annulus
`Rubber(r1=3, pos1=(0,1), r2=1, pos2=(0,0))` whose reference position
(inner center pos2) already equals the external point p=(0,0), with k=3 the
code yields `Rubber(9, (0,-3), 3, (0,-6))` while a direct `scale(3)` yields
`Rubber(9, (0,3), 3, (0,0))`. -/
theorem scaleRelativePoint_at_center_cex :
    refPos (Shape.Rubber 3 1 ⟨0, 1⟩ ⟨0, 0⟩) = ⟨0, 0⟩ ∧
    scaleRelativePoint (Shape.Rubber 3 1 ⟨0, 1⟩ ⟨0, 0⟩) ⟨0, 0⟩ 3 ≠
      scaleE (Shape.Rubber 3 1 ⟨0, 1⟩ ⟨0, 0⟩) 3 := by
  refine ⟨rfl, ?_⟩
  have h1 : scaleRelativePoint (Shape.Rubber 3 1 ⟨0, 1⟩ ⟨0, 0⟩) ⟨0, 0⟩ 3 =
      Except.ok (Shape.Rubber 9 3 ⟨0, -3⟩ ⟨0, -6⟩) := by
    rw [scaleRelativePoint_pos (Shape.Rubber 3 1 ⟨0, 1⟩ ⟨0, 0⟩) ⟨0, 0⟩ 3
      (by norm_num)]
    simp only [moveToP, getFrameRect, doScale, moveD, Except.ok.injEq,
      Shape.Rubber.injEq, point_t.mk.injEq]
    norm_num
  have h2 : scaleE (Shape.Rubber 3 1 ⟨0, 1⟩ ⟨0, 0⟩) 3 =
      Except.ok (Shape.Rubber 9 3 ⟨0, 3⟩ ⟨0, 0⟩) := by
    unfold scaleE
    split_ifs with h
    · norm_num at h
    · simp only [doScale, Except.ok.injEq, Shape.Rubber.injEq,
        point_t.mk.injEq]
      norm_num
  rw [h1, h2]
  intro h3
  rw [Except.ok.injEq, Shape.Rubber.injEq] at h3
  have h4 := congrArg point_t.y h3.2.2.1
  norm_num at h4

/-! ### C9: the Rubber construction invariant is preserved -/

/-- C9: the Rubber construction invariant (r1 > 0, r2 > 0, distinct centers,
distance(pos1,pos2) + r2 ≤ r1) is preserved, in exact arithmetic, by
`move(point_t)` (which keeps the center offset), by `move(dx,dy)` (a pure
translation) and by `scale(k)` for every k > 0 (which multiplies radii and
center offset alike by k); and under the invariant `getArea()` is strictly
positive. -/
theorem rubber_invariant_preserved (r1 r2 : ℝ) (p1 p2 p : point_t)
    (dx dy k : ℝ) (hk : 0 < k) (h : RubberOk r1 r2 p1 p2) :
    ShapeInv (moveToP (Shape.Rubber r1 r2 p1 p2) p) ∧
    ShapeInv (moveD (Shape.Rubber r1 r2 p1 p2) dx dy) ∧
    ShapeInv (doScale (Shape.Rubber r1 r2 p1 p2) k) ∧
    0 < getArea (Shape.Rubber r1 r2 p1 p2) := by
  obtain ⟨hr1, hr2, hc, hd⟩ := h
  have hsqrt_nonneg : 0 ≤ Real.sqrt ((p1.x - p2.x) * (p1.x - p2.x)
      + (p1.y - p2.y) * (p1.y - p2.y)) := Real.sqrt_nonneg _
  refine ⟨?_, ?_, ?_, ?_⟩
  · -- move(point_t) keeps the center offset
    simp only [moveToP, ShapeInv, RubberOk]
    refine ⟨hr1, hr2, ?_, ?_⟩
    · intro hcon
      exact hc ⟨by linarith [hcon.1], by linarith [hcon.2]⟩
    · have harg : (p.x + (p1.x - p2.x) - p.x) * (p.x + (p1.x - p2.x) - p.x)
          + (p.y + (p1.y - p2.y) - p.y) * (p.y + (p1.y - p2.y) - p.y)
          = (p1.x - p2.x) * (p1.x - p2.x) + (p1.y - p2.y) * (p1.y - p2.y) := by
        ring
      rw [harg]
      exact hd
  · -- move(dx, dy) is a pure translation
    simp only [moveD, ShapeInv, RubberOk]
    refine ⟨hr1, hr2, ?_, ?_⟩
    · intro hcon
      exact hc ⟨by linarith [hcon.1], by linarith [hcon.2]⟩
    · have harg : (p1.x + dx - (p2.x + dx)) * (p1.x + dx - (p2.x + dx))
          + (p1.y + dy - (p2.y + dy)) * (p1.y + dy - (p2.y + dy))
          = (p1.x - p2.x) * (p1.x - p2.x) + (p1.y - p2.y) * (p1.y - p2.y) := by
        ring
      rw [harg]
      exact hd
  · -- scale(k) multiplies radii and center offset alike
    simp only [doScale, ShapeInv, RubberOk]
    refine ⟨mul_pos hr1 hk, mul_pos hr2 hk, ?_, ?_⟩
    · intro hcon
      apply hc
      constructor
      · have hzero : k * (p1.x - p2.x) = 0 := by linarith [hcon.1]
        rcases mul_eq_zero.mp hzero with h0 | h0
        · exact absurd h0 (ne_of_gt hk)
        · linarith
      · have hzero : k * (p1.y - p2.y) = 0 := by linarith [hcon.2]
        rcases mul_eq_zero.mp hzero with h0 | h0
        · exact absurd h0 (ne_of_gt hk)
        · linarith
    · have harg : (p2.x + k * (p1.x - p2.x) - p2.x) * (p2.x + k * (p1.x - p2.x) - p2.x)
          + (p2.y + k * (p1.y - p2.y) - p2.y) * (p2.y + k * (p1.y - p2.y) - p2.y)
          = k ^ 2 * ((p1.x - p2.x) * (p1.x - p2.x)
              + (p1.y - p2.y) * (p1.y - p2.y)) := by
        ring
      rw [harg, Real.sqrt_mul (sq_nonneg k), Real.sqrt_sq hk.le]
      have h5 := mul_le_mul_of_nonneg_left hd hk.le
      nlinarith [h5]
  · -- the area is strictly positive under the invariant
    simp only [getArea]
    have hD : 0 < (p1.x - p2.x) * (p1.x - p2.x) + (p1.y - p2.y) * (p1.y - p2.y) := by
      rcases eq_or_ne p1.x p2.x with he | hne
      · have hny : p1.y ≠ p2.y := fun hy => hc ⟨he, hy⟩
        nlinarith [mul_self_pos.mpr (sub_ne_zero.mpr hny),
          mul_self_nonneg (p1.x - p2.x)]
      · nlinarith [mul_self_pos.mpr (sub_ne_zero.mpr hne),
          mul_self_nonneg (p1.y - p2.y)]
    have hsq : 0 < Real.sqrt ((p1.x - p2.x) * (p1.x - p2.x)
        + (p1.y - p2.y) * (p1.y - p2.y)) := Real.sqrt_pos.mpr hD
    have hlt : r2 < r1 := by linarith
    apply mul_pos Real.pi_pos
    nlinarith [hlt, hr1, hr2]

theorem rubber_invariant_preserved_witness :
    (0:ℝ) < 2 ∧ RubberOk 3 1 ⟨0, 1⟩ ⟨0, 0⟩ ∧
    (ShapeInv (moveToP (Shape.Rubber 3 1 ⟨0, 1⟩ ⟨0, 0⟩) ⟨5, 5⟩) ∧
     ShapeInv (moveD (Shape.Rubber 3 1 ⟨0, 1⟩ ⟨0, 0⟩) 1 2) ∧
     ShapeInv (doScale (Shape.Rubber 3 1 ⟨0, 1⟩ ⟨0, 0⟩) 2) ∧
     0 < getArea (Shape.Rubber 3 1 ⟨0, 1⟩ ⟨0, 0⟩)) := by
  have hOk : RubberOk 3 1 ⟨0, 1⟩ ⟨0, 0⟩ := by
    unfold RubberOk
    norm_num [Real.sqrt_one]
  exact ⟨by norm_num, hOk,
    rubber_invariant_preserved 3 1 ⟨0, 1⟩ ⟨0, 0⟩ ⟨5, 5⟩ 1 2 2 (by norm_num) hOk⟩

end goltsov
